import Mathlib

/-!
# Verification of the local-lode streaming query pipeline

Shallow embedding of the streaming client (`src/frontend/js/api.js`,
`APIClient.queryStream`) and the state store (`src/frontend/js/app.js`,
`StateManager`), with proofs of the spec's claims about them.

Wire text is modelled as `List Char` (the client decodes bytes to text
with a streaming `TextDecoder`; all protocol text is ASCII, so the
text level is the faithful level for the framing claims).
-/

/-! ## JavaScript values and `JSON.parse`

`Json.undefined` models the JavaScript value `undefined` (produced by a
missing property access, never by `JSON.parse` itself). -/

inductive Json where
  | undefined : Json
  | null : Json
  | bool : Bool → Json
  | num : Int → Json
  | str : List Char → Json
  | arr : List Json → Json
  | obj : List (List Char × Json) → Json

/-- JavaScript strict equality `j === 'lit'` against a string literal:
true exactly when `j` is that string. -/
def jStrEq (j : Json) (s : List Char) : Bool :=
  match j with
  | .str t => t == s
  | _ => false

/-- JSON whitespace (also the ASCII part of `String.prototype.trim`). -/
def isWs (c : Char) : Bool :=
  c = ' ' || c = '\t' || c = '\n' || c = '\r'

def skipWs (s : List Char) : List Char :=
  s.dropWhile isWs

/-- One-character JSON string escapes (`\uXXXX` is not modelled; no
input considered here uses it). -/
def escChar (c : Char) : Option Char :=
  if c = '"' then some '"'
  else if c = '\\' then some '\\'
  else if c = '/' then some '/'
  else if c = 'n' then some '\n'
  else if c = 't' then some '\t'
  else if c = 'r' then some '\r'
  else if c = 'b' then some (Char.ofNat 8)
  else if c = 'f' then some (Char.ofNat 12)
  else none

/-- Body of a JSON string after the opening quote; returns the decoded
characters and the input after the closing quote. -/
def parseStr : List Char → Option (List Char × List Char)
  | [] => none
  | '"' :: r => some ([], r)
  | '\\' :: e :: r =>
    match escChar e with
    | some c =>
      match parseStr r with
      | some (cs, r') => some (c :: cs, r')
      | none => none
    | none => none
  | c :: r =>
    match parseStr r with
    | some (cs, r') => some (c :: cs, r')
    | none => none

def digitsGo : Nat → List Char → Nat × List Char
  | acc, c :: r =>
    if c.isDigit then digitsGo (acc * 10 + (c.toNat - 48)) r else (acc, c :: r)
  | acc, [] => (acc, [])

/-- Integer JSON numbers (fractions and exponents are not modelled; no
input considered here uses them). -/
def parseNum : List Char → Option (Json × List Char)
  | '-' :: c :: r =>
    if c.isDigit then
      let d := digitsGo 0 (c :: r)
      some (.num (-(Int.ofNat d.1)), d.2)
    else none
  | c :: r =>
    if c.isDigit then
      let d := digitsGo 0 (c :: r)
      some (.num (Int.ofNat d.1), d.2)
    else none
  | [] => none

mutual

/-- Recursive-descent JSON value, fuelled by nesting depth. -/
def parseVal : Nat → List Char → Option (Json × List Char)
  | 0, _ => none
  | fuel + 1, s =>
    match skipWs s with
    | 'n' :: 'u' :: 'l' :: 'l' :: r => some (.null, r)
    | 't' :: 'r' :: 'u' :: 'e' :: r => some (.bool true, r)
    | 'f' :: 'a' :: 'l' :: 's' :: 'e' :: r => some (.bool false, r)
    | '"' :: r =>
      match parseStr r with
      | some (cs, r') => some (.str cs, r')
      | none => none
    | '[' :: r =>
      match skipWs r with
      | ']' :: r' => some (.arr [], r')
      | _ =>
        match parseItems fuel r with
        | some (xs, r') => some (.arr xs, r')
        | none => none
    | '\x7b' :: r =>
      match skipWs r with
      | '\x7d' :: r' => some (.obj [], r')
      | _ =>
        match parseFields fuel r with
        | some (fs, r') => some (.obj fs, r')
        | none => none
    | s' => parseNum s'

/-- Comma-separated array items up to the closing bracket. -/
def parseItems : Nat → List Char → Option (List Json × List Char)
  | 0, _ => none
  | fuel + 1, s =>
    match parseVal fuel s with
    | some (j, r) =>
      match skipWs r with
      | ',' :: r' =>
        match parseItems fuel r' with
        | some (xs, r'') => some (j :: xs, r'')
        | none => none
      | ']' :: r' => some ([j], r')
      | _ => none
    | none => none

/-- Comma-separated object members up to the closing brace. -/
def parseFields : Nat → List Char → Option (List (List Char × Json) × List Char)
  | 0, _ => none
  | fuel + 1, s =>
    match skipWs s with
    | '"' :: r =>
      match parseStr r with
      | some (k, r1) =>
        match skipWs r1 with
        | ':' :: r2 =>
          match parseVal fuel r2 with
          | some (v, r3) =>
            match skipWs r3 with
            | ',' :: r4 =>
              match parseFields fuel r4 with
              | some (fs, r5) => some ((k, v) :: fs, r5)
              | none => none
            | '\x7d' :: r4 => some ([(k, v)], r4)
            | _ => none
          | none => none
        | _ => none
      | none => none
    | _ => none

end

/-- `JSON.parse`: a single value, with the whole input consumed. -/
def parseJson (s : List Char) : Option Json :=
  match parseVal (s.length + 1) s with
  | some (j, rest) => if skipWs rest = [] then some j else none
  | none => none

/-- JavaScript property access `j.k`: `undefined` on a non-object or a
missing key; the last duplicate key wins, as in `JSON.parse`. -/
def jLookup (j : Json) (k : List Char) : Json :=
  match j with
  | .obj fs => fs.foldl (fun acc kv => if kv.1 = k then kv.2 else acc) .undefined
  | _ => .undefined

/-! ## The SSE frame decoder of `APIClient.queryStream`

The read loop keeps a carry-over text buffer; on each received chunk it
appends the chunk, splits the whole buffer on the blank-line separator
`"\n\n"` (leftmost, non-overlapping, as `String.prototype.split`), emits
every segment except the last, and retains the last segment as the new
buffer. -/

/-- `buffer.split('\n\n')` followed by `pop()`: all complete segments
(in order) and the trailing segment kept as the new buffer. -/
def splitFr : List Char → List (List Char) × List Char
  | [] => ([], [])
  | [c] => ([], [c])
  | c :: d :: rest =>
    if c = '\n' ∧ d = '\n' then
      let r := splitFr rest
      ([] :: r.1, r.2)
    else
      let r := splitFr (d :: rest)
      match r.1 with
      | [] => ([], c :: r.2)
      | f :: fs => ((c :: f) :: fs, r.2)

/-- Whether the text contains the blank-line separator `"\n\n"`. -/
def hasNN : List Char → Bool
  | [] => false
  | [_] => false
  | c :: d :: rest => (c = '\n' && d = '\n') || hasNN (d :: rest)

/-- `String.prototype.trim` (ASCII whitespace; the protocol text is ASCII). -/
def trimL (s : List Char) : List Char :=
  ((s.dropWhile isWs).reverse.dropWhile isWs).reverse

def beginsWith : List Char → List Char → Bool
  | [], _ => true
  | _ :: _, [] => false
  | p :: ps, c :: cs => p = c && beginsWith ps cs

def dataLead : List Char := 'd' :: 'a' :: 't' :: 'a' :: ':' :: ' ' :: []

def tyKey : List Char := 't' :: 'y' :: 'p' :: 'e' :: []

def plKey : List Char := 'p' :: 'a' :: 'y' :: 'l' :: 'o' :: 'a' :: 'd' :: []

/-- Per-segment body of the decode loop: if the trimmed segment starts
with `data: `, parse the remainder as JSON and invoke
`onChunk(data.type, data.payload)`; a parse failure is logged and the
frame dropped (`none` = no invocation). -/
def handleSeg (seg : List Char) : Option (Json × Json) :=
  let t := trimL seg
  if beginsWith dataLead t then
    match parseJson (t.drop 6) with
    | some j => some (jLookup j tyKey, jLookup j plKey)
    | none => none
  else none

/-- One iteration of the read loop on a received chunk: append to the
buffer, split, keep the trailing segment. -/
def feedChunk (buf chunk : List Char) : List (List Char) × List Char :=
  splitFr (buf ++ chunk)

/-- The whole read loop over a sequence of received chunks: complete
segments in completion order, and the final (discarded) buffer. -/
def runChunks : List Char → List (List Char) → List (List Char) × List Char
  | buf, [] => ([], buf)
  | buf, c :: cs =>
    let r := feedChunk buf c
    let r' := runChunks r.2 cs
    (r.1 ++ r'.1, r'.2)

/-- The ordered `onChunk` invocations produced by feeding the given
chunks to a fresh decode loop. -/
def decodeEvents (cs : List (List Char)) : List (Json × Json) :=
  (runChunks [] cs).1.filterMap handleSeg

/-- Outcome of one `reader.read()`: a value chunk, `done`, or a
rejected promise. -/
inductive ReadStep where
  | chunk : List Char → ReadStep
  | done : ReadStep
  | fail : ReadStep

/-- The `while (true)` read loop of `queryStream` over a sequence of
read outcomes: the `onChunk` invocations made, and whether the loop
ended by raising an exception (a rejected `reader.read()` is not caught
anywhere in `queryStream`, so it propagates). -/
def runReads : List Char → List ReadStep → List (Json × Json) × Bool
  | _, [] => ([], false)
  | _, .done :: _ => ([], false)
  | _, .fail :: _ => ([], true)
  | buf, .chunk c :: rs =>
    let f := feedChunk buf c
    let r := runReads f.2 rs
    (f.1.filterMap handleSeg ++ r.1, r.2)

/-! ## The `StateManager` of `app.js`

Listeners are identified by `Nat` ids standing for JavaScript function
identity (`subscribe` pushes the function, the returned unsubscriber
filters by `!==`). The `config` slice is modelled over the five keys the
application uses; an `Option` field of `none` is an absent (undefined)
key of the JavaScript object. -/

structure Config where
  kb_folder : Option (List Char)
  chunk_size : Option Int
  overlap : Option Int
  batch_size : Option Int
  ingest_docx : Option Bool
deriving DecidableEq

/-- Spread merge of two config objects, `{...old, ...new}`: present
fields of the update win, absent ones keep the old value. -/
def mergeConfig (old new : Config) : Config :=
  ⟨new.kb_folder <|> old.kb_folder,
   new.chunk_size <|> old.chunk_size,
   new.overlap <|> old.overlap,
   new.batch_size <|> old.batch_size,
   new.ingest_docx <|> old.ingest_docx⟩

structure AppState where
  results : Json
  llmResponse : Json
  loading : Bool
  error : Json
  config : Config

/-- The object literal passed to `setState`: `none` is a key absent
from the literal (so left untouched by the spread merge). -/
structure StateUpdate where
  results : Option Json
  llmResponse : Option Json
  loading : Option Bool
  error : Option Json
  config : Option Config

/-- `this.state = { ...this.state, ...updates }`: shallow merge. -/
def applyUpdate (s : AppState) (u : StateUpdate) : AppState :=
  ⟨u.results.getD s.results,
   u.llmResponse.getD s.llmResponse,
   u.loading.getD s.loading,
   u.error.getD s.error,
   u.config.getD s.config⟩

/-- `StateManager` instance state: application state and the listeners
array. -/
structure SM where
  state : AppState
  listeners : List Nat

/-- Initial state set in the `StateManager` constructor (note: the
initial `config` object has no `ingest_docx` key). -/
def initialConfig : Config :=
  ⟨some ('k' :: 'b' :: []), some 100000, some 200, some 64, none⟩

def initialAppState : AppState :=
  ⟨Json.arr [], Json.null, false, Json.null, initialConfig⟩

/-- The module-level singleton `const stateManager = new StateManager()`. -/
def smInit : SM := ⟨initialAppState, []⟩

/-- `subscribe(listener)`: push onto the listeners array. -/
def subscribe (m : SM) (i : Nat) : SM :=
  ⟨m.state, m.listeners ++ [i]⟩

/-- The unsubscribe function returned by `subscribe`:
`this.listeners = this.listeners.filter(l => l !== listener)`. -/
def unsubscribe (m : SM) (i : Nat) : SM :=
  ⟨m.state, m.listeners.filter (fun j => j ≠ i)⟩

/-- `notifyListeners`: call every listener with `this.state` (listener
bodies that do not touch the manager; reentrant bodies are modelled by
`forEachGo` below). -/
def notifyListeners (m : SM) : List (Nat × AppState) :=
  m.listeners.map (fun i => (i, m.state))

/-- `setState(updates)`: merge, then notify; returns the new manager
state and the ordered listener invocations (listener, argument). -/
def setState (m : SM) (u : StateUpdate) : SM × List (Nat × AppState) :=
  let m' : SM := ⟨applyUpdate m.state u, m.listeners⟩
  (m', notifyListeners m')

/-- A sequence of `setState` calls; collects all invocations in order. -/
def runUpdates : SM → List StateUpdate → SM × List (Nat × AppState)
  | m, [] => (m, [])
  | m, u :: us =>
    let r := setState m u
    let r' := runUpdates r.1 us
    (r'.1, r.2 ++ r'.2)

def setResults (m : SM) (v : Json) : SM × List (Nat × AppState) :=
  setState m ⟨some v, none, none, none, none⟩

def setLLMResponse (m : SM) (v : Json) : SM × List (Nat × AppState) :=
  setState m ⟨none, some v, none, none, none⟩

def setLoading (m : SM) (b : Bool) : SM × List (Nat × AppState) :=
  setState m ⟨none, none, some b, none, none⟩

def setError (m : SM) (v : Json) : SM × List (Nat × AppState) :=
  setState m ⟨none, none, none, some v, none⟩

def clearError (m : SM) : SM × List (Nat × AppState) :=
  setState m ⟨none, none, none, some Json.null, none⟩

/-- `updateConfig(config)`:
`setState({ config: { ...this.state.config, ...config } })`. -/
def updateConfig (m : SM) (c : Config) : SM × List (Nat × AppState) :=
  setState m ⟨none, none, none, none, some (mergeConfig m.state.config c)⟩

/-- `clearResults()`:
`setState({ results: [], llmResponse: null, error: null })`. -/
def clearResults (m : SM) : SM × List (Nat × AppState) :=
  setState m ⟨some (Json.arr []), some Json.null, none, some Json.null, none⟩

/-- A sequence of `updateConfig` merges starting from a config. -/
def applyConfigUpdates : Config → List Config → Config
  | c, [] => c
  | c, u :: us => applyConfigUpdates (mergeConfig c u) us

/-! ## Reentrant notification (`notifyListeners` with listeners that
subscribe or unsubscribe during the pass)

`this.listeners.forEach(listener => listener(this.state))` iterates the
array object that `this.listeners` referenced when `forEach` began,
with the element range cached at the start (ECMA-262: elements appended
after iteration begins are not visited). During the pass, `subscribe`
pushes onto `this.listeners` in place — extending the iterated object
exactly when it is still the same object — while the unsubscriber
replaces `this.listeners` with a fresh `filter` result, leaving the
iterated object untouched. -/

inductive LAction where
  | subAct : Nat → LAction
  | unsubAct : Nat → LAction

structure PassState where
  /-- Contents of the array object `forEach` is iterating. -/
  iterArr : List Nat
  /-- Contents of `this.listeners`. -/
  mgr : List Nat
  /-- Whether `this.listeners` is still the iterated object. -/
  same : Bool

def applyAct (ps : PassState) : LAction → PassState
  | .subAct i =>
    ⟨if ps.same then ps.iterArr ++ [i] else ps.iterArr, ps.mgr ++ [i], ps.same⟩
  | .unsubAct i =>
    ⟨ps.iterArr, ps.mgr.filter (fun j => j ≠ i), false⟩

/-- `forEach` from index `k` with `n` cached indices left: visit
`iterArr[k]` if present, run that listener's subscribe/unsubscribe
calls, continue. Returns the visited listeners in order and the final
state. -/
def forEachGo (behave : Nat → List LAction) : Nat → Nat → PassState → List Nat × PassState
  | _, 0, ps => ([], ps)
  | k, n + 1, ps =>
    match ps.iterArr.get? k with
    | some i =>
      let ps' := (behave i).foldl applyAct ps
      let r := forEachGo behave (k + 1) n ps'
      (i :: r.1, r.2)
    | none => forEachGo behave (k + 1) n ps

/-- One full `notifyListeners` pass over listeners `L`, where listener
`i` performs the subscribe/unsubscribe calls `behave i` when invoked:
the invoked listeners in order, and `this.listeners` afterwards. -/
def notifyPass (behave : Nat → List LAction) (L : List Nat) : List Nat × List Nat :=
  let r := forEachGo behave 0 L.length ⟨L, L, true⟩
  (r.1, r.2.mgr)

/-! ## The `handleQuery` event handler (`app.js`)

The callback passed to `queryStream` branches on the frame type and
maps it to a state mutation; any other type falls through with no
effect. The accumulator is the local `fullLLMResponse` string. -/

/-- JavaScript string coercion, for the `+=` and template-literal uses;
modelled for the primitive values the protocol carries. -/
def jsToStr : Json → List Char
  | .str s => s
  | .num n => (toString n).toList
  | .null => 'n' :: 'u' :: 'l' :: 'l' :: []
  | .undefined => "undefined".toList
  | .bool true => "true".toList
  | .bool false => "false".toList
  | .arr _ => []
  | .obj _ => "[object Object]".toList

def resultsKey : List Char := "results".toList

def chunkKey : List Char := "chunk".toList

def errorKey : List Char := "error".toList

def streamErrLead : List Char := "Stream error: ".toList

/-- The `(type, payload)` callback of `handleQuery`, acting on the
accumulator and the state manager. -/
def handleQueryEvent (st : List Char × SM) (ev : Json × Json) : List Char × SM :=
  if jStrEq ev.1 resultsKey then
    (st.1, (setResults st.2 (jLookup ev.2 resultsKey)).1)
  else if jStrEq ev.1 chunkKey then
    let acc := st.1 ++ jsToStr ev.2
    (acc, (setLLMResponse st.2 (Json.str acc)).1)
  else if jStrEq ev.1 errorKey then
    (st.1, (setError st.2 (Json.str (streamErrLead ++ jsToStr ev.2))).1)
  else st

/-! ## Decoder lemmas -/

theorem splitFr_nn (rest : List Char) :
    splitFr ('\n' :: '\n' :: rest) = ([] :: (splitFr rest).1, (splitFr rest).2) := by
  simp [splitFr]

theorem splitFr_other_nil {c d : Char} {rest : List Char} (h : ¬(c = '\n' ∧ d = '\n'))
    (h2 : (splitFr (d :: rest)).1 = []) :
    splitFr (c :: d :: rest) = ([], c :: (splitFr (d :: rest)).2) := by
  simp only [splitFr, if_neg h]
  rw [h2]

theorem splitFr_other_cons {c d : Char} {f : List Char} {fs : List (List Char)}
    {rest : List Char} (h : ¬(c = '\n' ∧ d = '\n'))
    (h2 : (splitFr (d :: rest)).1 = f :: fs) :
    splitFr (c :: d :: rest) = ((c :: f) :: fs, (splitFr (d :: rest)).2) := by
  simp only [splitFr, if_neg h]
  rw [h2]

/-- A split that produced no complete segment kept the whole text as
the buffer. -/
theorem splitFr_fst_nil : ∀ {l : List Char}, (splitFr l).1 = [] → (splitFr l).2 = l := by
  intro l
  induction l using splitFr.induct with
  | case1 => intro _; rfl
  | case2 c => intro _; rfl
  | case3 c d rest hcd ih =>
    obtain ⟨rfl, rfl⟩ := hcd
    rw [splitFr_nn]
    intro h
    exact absurd h (by simp)
  | case4 c d rest hcd r hr ih =>
    rw [splitFr_other_nil hcd hr]
    intro _
    simp [ih hr]
  | case5 c d rest hcd r f fs hr ih =>
    rw [splitFr_other_cons hcd hr]
    intro h
    exact absurd h (by simp)

/-- Text without the separator splits into no complete segment: the
whole text stays buffered. -/
theorem splitFr_of_not_hasNN : ∀ {l : List Char}, hasNN l = false → splitFr l = ([], l) := by
  intro l
  induction l using hasNN.induct with
  | case1 => intro _; rfl
  | case2 c => intro _; rfl
  | case3 c d rest ih =>
    intro h
    simp only [hasNN, Bool.or_eq_false_iff, Bool.and_eq_false_iff] at h
    have hcd : ¬(c = '\n' ∧ d = '\n') := by
      rcases h.1 with h' | h' <;> simp_all
    have hrec := ih h.2
    rw [splitFr_other_nil hcd (by rw [hrec])]
    rw [hrec]

/-- The carry-over buffer never contains the separator. -/
theorem hasNN_splitFr_snd : ∀ (l : List Char), hasNN (splitFr l).2 = false := by
  intro l
  induction l using splitFr.induct with
  | case1 => rfl
  | case2 c => rfl
  | case3 c d rest hcd ih =>
    obtain ⟨rfl, rfl⟩ := hcd
    rw [splitFr_nn]
    exact ih
  | case4 c d rest hcd r hr ih =>
    rw [splitFr_other_nil hcd hr]
    have h2 := splitFr_fst_nil hr
    rw [h2] at ih ⊢
    simp only [hasNN]
    rw [ih, Bool.or_false, Bool.and_eq_false_iff]
    by_cases hc : c = '\n'
    · subst hc
      by_cases hd : d = '\n'
      · exact absurd ⟨rfl, hd⟩ hcd
      · right; simp [hd]
    · left; simp [hc]
  | case5 c d rest hcd r f fs hr ih =>
    rw [splitFr_other_cons hcd hr]
    exact ih

/-- Splitting a concatenation: split the first part, then re-split its
retained buffer with the rest appended. This is exactly what the read
loop does across chunk boundaries. -/
theorem splitFr_append (x y : List Char) :
    splitFr (x ++ y) =
      ((splitFr x).1 ++ (splitFr ((splitFr x).2 ++ y)).1,
       (splitFr ((splitFr x).2 ++ y)).2) := by
  induction x using splitFr.induct with
  | case1 => simp [splitFr]
  | case2 c => simp [splitFr]
  | case3 c d rest hcd ih =>
    obtain ⟨rfl, rfl⟩ := hcd
    have hx : ('\n' :: '\n' :: rest) ++ y = '\n' :: '\n' :: (rest ++ y) := rfl
    rw [hx, splitFr_nn, splitFr_nn, ih]
    simp
  | case4 c d rest hcd r hr ih =>
    have h2 := splitFr_fst_nil hr
    rw [splitFr_other_nil hcd hr]
    simp only [h2, List.nil_append]
  | case5 c d rest hcd r f fs hr ih =>
    rw [splitFr_other_cons hcd hr]
    have hx : (c :: d :: rest) ++ y = c :: d :: (rest ++ y) := rfl
    have hdy : (d :: rest) ++ y = d :: (rest ++ y) := rfl
    rw [hdy] at ih
    rw [hr] at ih
    have h1 : (splitFr (d :: (rest ++ y))).1 =
        f :: (fs ++ (splitFr ((splitFr (d :: rest)).2 ++ y)).1) := by
      rw [ih]
      rfl
    have h2 : (splitFr (d :: (rest ++ y))).2 =
        (splitFr ((splitFr (d :: rest)).2 ++ y)).2 := by
      rw [ih]
    rw [hx, splitFr_other_cons hcd h1, h2]
    simp

/-- The chunked read loop computes exactly the split of the whole
received text (provided the starting buffer holds no separator, which
is an invariant of the loop and holds for the fresh empty buffer). -/
theorem runChunks_join :
    ∀ (cs : List (List Char)) (buf : List Char), hasNN buf = false →
      runChunks buf cs = splitFr (buf ++ cs.flatten) := by
  intro cs
  induction cs with
  | nil =>
    intro buf h
    simp [runChunks, splitFr_of_not_hasNN h]
  | cons c cs ih =>
    intro buf h
    simp only [runChunks, feedChunk]
    rw [ih _ (hasNN_splitFr_snd _)]
    rw [List.flatten_cons, show buf ++ (c ++ cs.flatten) = (buf ++ c) ++ cs.flatten from
      (List.append_assoc buf c cs.flatten).symm]
    rw [splitFr_append (buf ++ c) cs.flatten]

theorem decodeEvents_single (x : List Char) :
    decodeEvents [x] = (splitFr x).1.filterMap handleSeg := by
  simp [decodeEvents, runChunks, feedChunk]

/-- C2 core: feeding the pieces equals feeding the joined text. -/
theorem decodeEvents_join (cs : List (List Char)) :
    decodeEvents cs = decodeEvents [cs.flatten] := by
  rw [decodeEvents, runChunks_join cs [] rfl, List.nil_append, decodeEvents_single]

/-- A separator-free segment not ending in a newline, followed by the
separator, splits off as one complete frame. -/
theorem splitFr_frame :
    ∀ {s : List Char}, hasNN s = false → s.getLast? ≠ some '\n' →
      ∀ (rest : List Char),
        splitFr (s ++ '\n' :: '\n' :: rest) = (s :: (splitFr rest).1, (splitFr rest).2) := by
  intro s
  induction s using hasNN.induct with
  | case1 =>
    intro _ _ rest
    simp [splitFr_nn]
  | case2 c =>
    intro _ hlast rest
    have hc : c ≠ '\n' := by
      intro hc
      exact hlast (by simp [hc])
    have hcd : ¬(c = '\n' ∧ '\n' = '\n') := fun h => hc h.1
    have h2 : (splitFr ('\n' :: '\n' :: rest)).1 = [] :: (splitFr rest).1 := by
      rw [splitFr_nn]
    rw [show [c] ++ '\n' :: '\n' :: rest = c :: '\n' :: '\n' :: rest from rfl,
      splitFr_other_cons hcd h2, splitFr_nn]
  | case3 c d s' ih =>
    intro h hlast rest
    simp only [hasNN, Bool.or_eq_false_iff, Bool.and_eq_false_iff] at h
    have hcd : ¬(c = '\n' ∧ d = '\n') := by
      rcases h.1 with h' | h' <;> simp_all
    have hlast' : (d :: s').getLast? ≠ some '\n' := by
      rwa [List.getLast?_cons_cons] at hlast
    have hrec := ih h.2 hlast' rest
    have h2 : (splitFr (d :: (s' ++ '\n' :: '\n' :: rest))).1 =
        (d :: s') :: (splitFr rest).1 := by
      rw [show d :: (s' ++ '\n' :: '\n' :: rest) = (d :: s') ++ '\n' :: '\n' :: rest from rfl,
        hrec]
    have h3 : (splitFr (d :: (s' ++ '\n' :: '\n' :: rest))).2 = (splitFr rest).2 := by
      rw [show d :: (s' ++ '\n' :: '\n' :: rest) = (d :: s') ++ '\n' :: '\n' :: rest from rfl,
        hrec]
    rw [show (c :: d :: s') ++ '\n' :: '\n' :: rest
        = c :: d :: (s' ++ '\n' :: '\n' :: rest) from rfl,
      splitFr_other_cons hcd h2, h3]

theorem hasNN_tail {c : Char} {l : List Char} (h : hasNN (c :: l) = false) :
    hasNN l = false := by
  cases l with
  | nil => rfl
  | cons d l' =>
    simp only [hasNN, Bool.or_eq_false_iff] at h
    exact h.2

/-- After text that ends with the separator, the retained buffer is
either empty or the single leftover `'\n'` of an odd newline run. -/
theorem splitFr_snd_after_nn :
    ∀ (l : List Char),
      (splitFr (l ++ '\n' :: '\n' :: [])).2 = [] ∨
      (splitFr (l ++ '\n' :: '\n' :: [])).2 = ['\n'] := by
  intro l
  generalize hn : l.length = n
  induction n using Nat.strong_induction_on generalizing l with
  | _ n ih =>
    cases l with
    | nil =>
      left
      rw [List.nil_append, splitFr_nn]
      rfl
    | cons c t =>
      cases t with
      | nil =>
        by_cases hc : c = '\n'
        · subst hc
          right
          rw [show ['\n'] ++ '\n' :: '\n' :: [] = '\n' :: '\n' :: ['\n'] from rfl, splitFr_nn]
          rfl
        · left
          have hcd : ¬(c = '\n' ∧ '\n' = '\n') := fun h => hc h.1
          have h2 : (splitFr ('\n' :: '\n' :: [])).1 = [] :: (splitFr ([] : List Char)).1 :=
            by rw [splitFr_nn]
          rw [show [c] ++ '\n' :: '\n' :: [] = c :: '\n' :: '\n' :: [] from rfl,
            splitFr_other_cons hcd h2, splitFr_nn]
          rfl
      | cons d l' =>
        simp only [List.length_cons] at hn
        by_cases hcd : c = '\n' ∧ d = '\n'
        · obtain ⟨rfl, rfl⟩ := hcd
          rw [show ('\n' :: '\n' :: l') ++ '\n' :: '\n' :: []
              = '\n' :: '\n' :: (l' ++ '\n' :: '\n' :: []) from rfl, splitFr_nn]
          exact ih l'.length (by omega) l' rfl
        · have hne : (splitFr ((d :: l') ++ '\n' :: '\n' :: [])).1 ≠ [] := by
            intro hnil
            have hbuf := splitFr_fst_nil hnil
            have hnn := hasNN_splitFr_snd ((d :: l') ++ '\n' :: '\n' :: [])
            rw [hbuf] at hnn
            have htr : hasNN ((d :: l') ++ '\n' :: '\n' :: []) = true := by
              clear hnn hbuf hnil hcd ih hn
              induction (d :: l') using hasNN.induct with
              | case1 => simp [hasNN]
              | case2 c => simp [hasNN]
              | case3 a b t iht =>
                simp only [List.cons_append, hasNN, Bool.or_eq_true]
                right
                exact iht
            rw [htr] at hnn
            exact absurd hnn (by decide)
          obtain ⟨f, fs, hf⟩ : ∃ f fs, (splitFr ((d :: l') ++ '\n' :: '\n' :: [])).1 = f :: fs := by
            cases hx : (splitFr ((d :: l') ++ '\n' :: '\n' :: [])).1 with
            | nil => exact absurd hx hne
            | cons f fs => exact ⟨f, fs, rfl⟩
          have hrw : d :: (l' ++ '\n' :: '\n' :: []) = (d :: l') ++ '\n' :: '\n' :: [] := rfl
          have hstep : splitFr (c :: d :: (l' ++ '\n' :: '\n' :: []))
              = ((c :: f) :: fs, (splitFr (d :: (l' ++ '\n' :: '\n' :: []))).2) :=
            splitFr_other_cons hcd (by rw [hrw]; exact hf)
          rw [show (c :: d :: l') ++ '\n' :: '\n' :: []
              = c :: d :: (l' ++ '\n' :: '\n' :: []) from rfl, hstep, hrw]
          exact ih (d :: l').length (by simp only [List.length_cons]; omega) (d :: l') rfl

/-- The read loop on a run of value chunks followed by further read
outcomes: the chunk prefix contributes exactly the decoded events of
those chunks, already delivered before the remaining outcomes act. -/
theorem runReads_chunks :
    ∀ (cs : List (List Char)) (buf : List Char) (rs : List ReadStep),
      runReads buf (cs.map ReadStep.chunk ++ rs) =
        ((runChunks buf cs).1.filterMap handleSeg
          ++ (runReads (runChunks buf cs).2 rs).1,
         (runReads (runChunks buf cs).2 rs).2) := by
  intro cs
  induction cs with
  | nil =>
    intro buf rs
    simp [runChunks, runReads]
  | cons c cs ih =>
    intro buf rs
    simp only [List.map_cons, List.cons_append, runReads, runChunks, List.append_eq]
    rw [ih (feedChunk buf c).2 rs]
    simp [List.filterMap_append, List.append_assoc]

/-! ## StateManager lemmas -/

/-- Subscribe/unsubscribe calls made during a pass only ever append to
the iterated array object (while it is still the manager's array) or
replace the manager's array with a fresh one — the already-iterated
prefix is never changed. -/
theorem applyAct_keeps (ps : PassState) (a : LAction) (snap ext : List Nat)
    (h : ps.iterArr = snap ++ ext) :
    ∃ ext', (applyAct ps a).iterArr = snap ++ ext' := by
  cases a with
  | subAct i =>
    by_cases hs : ps.same = true
    · exact ⟨ext ++ [i], by simp [applyAct, hs, h, List.append_assoc]⟩
    · exact ⟨ext, by simp [applyAct, hs, h]⟩
  | unsubAct i => exact ⟨ext, by simp [applyAct, h]⟩

theorem foldl_applyAct_keeps (acts : List LAction) :
    ∀ (ps : PassState) (snap ext : List Nat), ps.iterArr = snap ++ ext →
      ∃ ext', (acts.foldl applyAct ps).iterArr = snap ++ ext' := by
  induction acts with
  | nil => exact fun ps snap ext h => ⟨ext, h⟩
  | cons a acts ih =>
    intro ps snap ext h
    obtain ⟨ext', h'⟩ := applyAct_keeps ps a snap ext h
    exact ih (applyAct ps a) snap ext' h'

/-- The `forEach` pass visits exactly the first `len0` elements the
array held when the pass began, in order. -/
theorem forEachGo_visits (behave : Nat → List LAction) :
    ∀ (n k : Nat) (ps : PassState) (snap : List Nat),
      (∃ ext, ps.iterArr = snap ++ ext) → k + n = snap.length →
      (forEachGo behave k n ps).1 = snap.drop k := by
  intro n
  induction n with
  | zero =>
    intro k ps snap _ hk
    rw [forEachGo, List.drop_eq_nil_of_le (by omega)]
  | succ n ih =>
    intro k ps snap hext hk
    obtain ⟨ext, hex⟩ := hext
    have hklt : k < snap.length := by omega
    have hget : ps.iterArr.get? k = some (snap.get ⟨k, hklt⟩) := by
      rw [hex, List.get?_append hklt, List.get?_eq_get hklt]
    rw [forEachGo, hget]
    dsimp only
    obtain ⟨ext', hps'⟩ := foldl_applyAct_keeps (behave (snap.get ⟨k, hklt⟩)) ps snap ext hex
    rw [ih (k + 1) _ snap ⟨ext', hps'⟩ (by omega)]
    rw [List.drop_eq_getElem_cons hklt]
    rfl

theorem setState_listeners (m : SM) (u : StateUpdate) :
    (setState m u).1.listeners = m.listeners := rfl

theorem runUpdates_listeners :
    ∀ (us : List StateUpdate) (m : SM), (runUpdates m us).1.listeners = m.listeners := by
  intro us
  induction us with
  | nil => intro m; rfl
  | cons u us ih => intro m; exact ih (setState m u).1

/-- A listener not in the array receives no invocation from any number
of later `setState` calls. -/
theorem runUpdates_filter_not_mem :
    ∀ (us : List StateUpdate) (m : SM) (L : Nat), L ∉ m.listeners →
      ((runUpdates m us).2.filter (fun p => p.1 = L)) = [] := by
  intro us
  induction us with
  | nil => intro m L _; rfl
  | cons u us ih =>
    intro m L h
    simp only [runUpdates, List.filter_append]
    rw [ih (setState m u).1 L h]
    simp only [List.append_nil, setState, notifyListeners, List.filter_map]
    rw [List.filter_eq_nil_iff.mpr ?_]
    · rfl
    · intro i hi
      simp only [Function.comp]
      intro hdec
      exact h (by simpa [show i = L from by simpa using hdec] using hi)

/-! ## Claims -/

/-- C1 counterexample: with headers received and the very first body
read rejecting, `queryStream` delivers no `Error` event through
`onChunk` at all (first component `[]`) and instead lets the rejection
propagate as an exception (second component `true`) — contrary to the
claim that the failure is reported once as an `Error` event through
`onEvent` rather than as an exception. -/
theorem claim_C1_cex :
    (runReads [] [ReadStep.fail]).1 = [] ∧ (runReads [] [ReadStep.fail]).2 = true :=
  ⟨rfl, rfl⟩

/-- C1 amended: a mid-stream read failure after headers propagates out
of `queryStream` as an exception (no `Error` event is synthesized
through `onChunk`), while every event decoded from chunks read before
the failure has already been delivered, exactly as on a normally
completed stream. -/
theorem claim_C1_amended (cs : List (List Char)) :
    runReads [] (cs.map ReadStep.chunk ++ [ReadStep.fail]) = (decodeEvents cs, true) ∧
    runReads [] (cs.map ReadStep.chunk ++ [ReadStep.done]) = (decodeEvents cs, false) := by
  constructor
  · rw [runReads_chunks cs [] [ReadStep.fail]]
    simp [decodeEvents, runReads]
  · rw [runReads_chunks cs [] [ReadStep.done]]
    simp [decodeEvents, runReads]

/-- C2: chunk-boundary independence — feeding any partition of the
stream text piece by piece to the decode loop produces exactly the
`onChunk` invocation sequence of feeding the joined text as one chunk. -/
theorem claim_C2 (pieces : List (List Char)) :
    decodeEvents pieces = decodeEvents [pieces.flatten] :=
  decodeEvents_join pieces

/-- A complete frame whose type tag is not `results`/`chunk`/`error`. -/
def statusFrame : List Char :=
  ("data: \x7b\"type\":\"status\",\"payload\":5\x7d\n\n").toList

def statusTag : List Char := 's' :: 't' :: 'a' :: 't' :: 'u' :: 's' :: []

/-- C3 counterexample: `queryStream` DOES invoke `onChunk` for a frame
with the unrecognized type `"status"` — the invocation list is not
empty, contrary to the claim that `queryStream` does not invoke
`onEvent` for such frames. (The filtering to the three known types
happens in `handleQuery`'s callback, not in `queryStream`.) -/
theorem claim_C3_cex :
    decodeEvents [statusFrame] = [(Json.str statusTag, Json.num 5)] := rfl

/-- C3 amended: `queryStream` invokes `onChunk` once for every
successfully parsed `data:` frame regardless of its type tag (second
conjunct, for any single complete frame), and the ignoring of
unrecognized types is performed by `handleQuery`'s callback, which
leaves the accumulator and the state manager untouched for any type
that is none of `results`, `chunk`, `error` (first conjunct). -/
theorem claim_C3_amended (acc : List Char) (m : SM) (t p : Json)
    (h1 : jStrEq t resultsKey = false) (h2 : jStrEq t chunkKey = false)
    (h3 : jStrEq t errorKey = false) :
    handleQueryEvent (acc, m) (t, p) = (acc, m) ∧
    ∀ (s : List Char), hasNN s = false → s.getLast? ≠ some '\n' →
      decodeEvents [s ++ '\n' :: '\n' :: []] = (handleSeg s).toList := by
  constructor
  · simp [handleQueryEvent, h1, h2, h3]
  · intro s hs hlast
    rw [decodeEvents_single, splitFr_frame hs hlast []]
    cases hx : handleSeg s <;> simp [List.filterMap_cons, hx, splitFr]

/-- C3 witness: the amended claim at the concrete unknown-type event
`("status", 5)` and the concrete single frame `statusFrame`. -/
theorem claim_C3_amended_w :
    handleQueryEvent ([], smInit) (Json.str statusTag, Json.num 5) = ([], smInit) ∧
    decodeEvents [("data: \x7b\"type\":\"status\",\"payload\":5\x7d").toList ++ '\n' :: '\n' :: []]
      = (handleSeg (("data: \x7b\"type\":\"status\",\"payload\":5\x7d").toList)).toList :=
  ⟨(claim_C3_amended [] smInit (Json.str statusTag) (Json.num 5) rfl rfl rfl).1,
   (claim_C3_amended [] smInit (Json.str statusTag) (Json.num 5) rfl rfl rfl).2
     (("data: \x7b\"type\":\"status\",\"payload\":5\x7d").toList) rfl (by decide)⟩

/-- C4: malformed-frame isolation — in a stream of three complete
frames whose middle segment fails to parse (`handleSeg s2 = none`, the
logged-and-dropped case), the decode loop still delivers exactly the
events of the first and third frames, in order; the malformed frame
neither aborts the loop nor suppresses its neighbours. -/
theorem claim_C4 (s1 s2 s3 : List Char)
    (h1 : hasNN s1 = false) (g1 : s1.getLast? ≠ some '\n')
    (h2 : hasNN s2 = false) (g2 : s2.getLast? ≠ some '\n')
    (h3 : hasNN s3 = false) (g3 : s3.getLast? ≠ some '\n')
    (hm : handleSeg s2 = none) :
    decodeEvents [s1 ++ '\n' :: '\n' :: (s2 ++ '\n' :: '\n' :: (s3 ++ '\n' :: '\n' :: []))] =
      (handleSeg s1).toList ++ (handleSeg s3).toList := by
  rw [decodeEvents_single, splitFr_frame h1 g1, splitFr_frame h2 g2, splitFr_frame h3 g3]
  cases hx1 : handleSeg s1 <;> cases hx3 : handleSeg s3 <;>
    simp [List.filterMap_cons, hm, hx1, hx3, splitFr]

/-- C4 witness: two valid `chunk` frames around the spec's malformed
frame `data: {not json}`. -/
theorem claim_C4_w :
    decodeEvents [("data: \x7b\"type\":\"chunk\",\"payload\":\"A\"\x7d").toList
        ++ '\n' :: '\n' :: (("data: \x7bnot json\x7d").toList
        ++ '\n' :: '\n' :: (("data: \x7b\"type\":\"chunk\",\"payload\":\"B\"\x7d").toList
        ++ '\n' :: '\n' :: []))] =
      (handleSeg (("data: \x7b\"type\":\"chunk\",\"payload\":\"A\"\x7d").toList)).toList
        ++ (handleSeg (("data: \x7b\"type\":\"chunk\",\"payload\":\"B\"\x7d").toList)).toList :=
  claim_C4 _ _ _ (by decide) (by decide) (by decide) (by decide) (by decide) (by decide) rfl

/-- C5: discard-at-end — a stream whose text ends with a non-empty
trailing segment after the last blank-line separator produces exactly
the `onChunk` invocations of the stream truncated at that separator:
the buffered trailing text is discarded when the read loop ends, never
flushed as a frame. -/
theorem claim_C5 (pre tail : List Char) (hne : tail ≠ []) (hnn : hasNN tail = false) :
    decodeEvents [pre ++ '\n' :: '\n' :: tail] =
      decodeEvents [pre ++ '\n' :: '\n' :: []] := by
  have hx : pre ++ '\n' :: '\n' :: tail = (pre ++ '\n' :: '\n' :: []) ++ tail := by
    simp
  rw [decodeEvents_single, decodeEvents_single, hx, splitFr_append, List.filterMap_append]
  have hF2 : List.filterMap handleSeg
      (splitFr ((splitFr (pre ++ '\n' :: '\n' :: [])).2 ++ tail)).1 = [] := by
    rcases splitFr_snd_after_nn pre with hb | hb
    · rw [hb, List.nil_append, splitFr_of_not_hasNN hnn]
      rfl
    · rw [hb]
      cases tail with
      | nil => exact absurd rfl hne
      | cons t ts =>
        by_cases ht : t = '\n'
        · subst ht
          rw [show ('\n' :: []) ++ '\n' :: ts = '\n' :: '\n' :: ts from rfl, splitFr_nn,
            splitFr_of_not_hasNN (hasNN_tail hnn)]
          simp [List.filterMap_cons, handleSeg, trimL, beginsWith, dataLead]
        · have hcd : ¬('\n' = '\n' ∧ t = '\n') := fun hc => ht hc.2
          have hrec : (splitFr (t :: ts)).1 = [] := by
            rw [splitFr_of_not_hasNN hnn]
          rw [show ('\n' :: []) ++ t :: ts = '\n' :: t :: ts from rfl,
            splitFr_other_nil hcd hrec]
          rfl
  rw [hF2, List.append_nil]

/-- C5 witness: a complete frame followed by an unterminated trailing
frame; the trailing text contributes no event. -/
theorem claim_C5_w :
    decodeEvents [("data: \x7b\"type\":\"chunk\",\"payload\":\"A\"\x7d").toList
        ++ '\n' :: '\n' :: ("data: \x7b\"type\":\"chunk\",\"payload\":\"B\"\x7d").toList] =
      decodeEvents [("data: \x7b\"type\":\"chunk\",\"payload\":\"A\"\x7d").toList
        ++ '\n' :: '\n' :: []] :=
  claim_C5 _ _ (by decide) (by decide)

theorem filter_invocations (l : List Nat) (L : Nat) (s : AppState) (h : L ∉ l) :
    ((l ++ [L]).map (fun i => (i, s))).filter (fun p => p.1 = L) = [(L, s)] := by
  rw [List.filter_map, List.filter_append]
  have hl : l.filter ((fun p => decide (p.1 = L)) ∘ (fun i => (i, s))) = [] := by
    rw [List.filter_eq_nil_iff]
    intro i hi
    simp only [Function.comp, decide_eq_true_eq]
    intro he
    exact h (he ▸ hi)
  rw [hl]
  simp

theorem not_mem_filter_ne (l : List Nat) (L : Nat) :
    L ∉ l.filter (fun j => j ≠ L) := by
  intro hmem
  have := List.of_mem_filter hmem
  simp at this

/-- C6: after `subscribe(L)` on a store not already holding `L`, each
`setState` invokes every currently-subscribed listener exactly once, in
subscription order, passing the full post-merge state (first two
conjuncts); in particular `L` is invoked exactly twice across the two
calls, each time with the corresponding fully merged state (third
conjunct); and after running the unsubscriber returned for `L`, no
later sequence of `setState` calls invokes `L` again (fourth
conjunct). -/
theorem claim_C6 (m : SM) (L : Nat) (u₁ u₂ : StateUpdate) (h : L ∉ m.listeners) :
    (setState (subscribe m L) u₁).2 =
      (subscribe m L).listeners.map (fun i => (i, applyUpdate m.state u₁)) ∧
    (setState (setState (subscribe m L) u₁).1 u₂).2 =
      (subscribe m L).listeners.map
        (fun i => (i, applyUpdate (applyUpdate m.state u₁) u₂)) ∧
    ((setState (subscribe m L) u₁).2
        ++ (setState (setState (subscribe m L) u₁).1 u₂).2).filter
          (fun p => p.1 = L) =
      [(L, applyUpdate m.state u₁), (L, applyUpdate (applyUpdate m.state u₁) u₂)] ∧
    ∀ us,
      ((runUpdates (unsubscribe (setState (setState (subscribe m L) u₁).1 u₂).1 L) us).2.filter
        (fun p => p.1 = L)) = [] := by
  refine ⟨rfl, rfl, ?_, ?_⟩
  · rw [List.filter_append]
    have e1 : (setState (subscribe m L) u₁).2 =
        (m.listeners ++ [L]).map (fun i => (i, applyUpdate m.state u₁)) := rfl
    have e2 : (setState (setState (subscribe m L) u₁).1 u₂).2 =
        (m.listeners ++ [L]).map
          (fun i => (i, applyUpdate (applyUpdate m.state u₁) u₂)) := rfl
    rw [e1, e2, filter_invocations _ _ _ h, filter_invocations _ _ _ h]
    rfl
  · intro us
    exact runUpdates_filter_not_mem us _ L (not_mem_filter_ne _ L)

/-- C6 witness: the spec's scenario — subscribe a fresh listener to the
singleton store, set `loading` true then false, then unsubscribe and
run one more update. -/
theorem claim_C6_w :
    (setState (subscribe smInit 0) ⟨none, none, some true, none, none⟩).2 =
      (subscribe smInit 0).listeners.map
        (fun i => (i, applyUpdate smInit.state ⟨none, none, some true, none, none⟩)) ∧
    ((setState (subscribe smInit 0) ⟨none, none, some true, none, none⟩).2
        ++ (setState (setState (subscribe smInit 0) ⟨none, none, some true, none, none⟩).1
              ⟨none, none, some false, none, none⟩).2).filter (fun p => p.1 = 0) =
      [(0, applyUpdate smInit.state ⟨none, none, some true, none, none⟩),
       (0, applyUpdate (applyUpdate smInit.state ⟨none, none, some true, none, none⟩)
             ⟨none, none, some false, none, none⟩)] ∧
    ((runUpdates
        (unsubscribe
          (setState (setState (subscribe smInit 0) ⟨none, none, some true, none, none⟩).1
            ⟨none, none, some false, none, none⟩).1 0)
        [⟨none, none, some true, none, none⟩]).2.filter (fun p => p.1 = 0)) = [] :=
  ⟨(claim_C6 smInit 0 ⟨none, none, some true, none, none⟩
      ⟨none, none, some false, none, none⟩ (by decide)).1,
   (claim_C6 smInit 0 ⟨none, none, some true, none, none⟩
      ⟨none, none, some false, none, none⟩ (by decide)).2.2.1,
   (claim_C6 smInit 0 ⟨none, none, some true, none, none⟩
      ⟨none, none, some false, none, none⟩ (by decide)).2.2.2
     [⟨none, none, some true, none, none⟩]⟩

/-- C7: reentrancy safety of a notification pass — whatever
subscribe/unsubscribe calls the listeners make while being notified,
the pass invokes exactly the listeners present when it began, in
order: a listener subscribed during the pass is not invoked in that
pass, and one unsubscribed during the pass is still invoked. -/
theorem claim_C7 (behave : Nat → List LAction) (L : List Nat) :
    (notifyPass behave L).1 = L := by
  have h := forEachGo_visits behave L.length 0 ⟨L, L, true⟩ L
    ⟨[], (List.append_nil L).symm⟩ (by omega)
  simpa [notifyPass] using h

/-- C8: `clearResults()` empties `results`, unsets `llmResponse` and
`error` (to `null`), and changes nothing else: `config`, `loading` and
the listeners array are exactly those of the previous state. -/
theorem claim_C8 (m : SM) :
    (clearResults m).1.state.results = Json.arr [] ∧
    (clearResults m).1.state.llmResponse = Json.null ∧
    (clearResults m).1.state.error = Json.null ∧
    (clearResults m).1.state.config = m.state.config ∧
    (clearResults m).1.state.loading = m.state.loading ∧
    (clearResults m).1.listeners = m.listeners :=
  ⟨rfl, rfl, rfl, rfl, rfl, rfl⟩

theorem orElse_isSome {α : Type} {a b : Option α} (h : b.isSome = true) :
    (a <|> b).isSome = true := by
  cases a with
  | none => simpa using h
  | some x => rfl

theorem applyConfigUpdates_isSome :
    ∀ (us : List Config) (c : Config),
      c.kb_folder.isSome = true → c.chunk_size.isSome = true →
      c.overlap.isSome = true → c.batch_size.isSome = true →
      (applyConfigUpdates c us).kb_folder.isSome = true ∧
      (applyConfigUpdates c us).chunk_size.isSome = true ∧
      (applyConfigUpdates c us).overlap.isSome = true ∧
      (applyConfigUpdates c us).batch_size.isSome = true := by
  intro us
  induction us with
  | nil => exact fun c h1 h2 h3 h4 => ⟨h1, h2, h3, h4⟩
  | cons u us ih =>
    intro c h1 h2 h3 h4
    exact ih (mergeConfig c u) (orElse_isSome h1) (orElse_isSome h2)
      (orElse_isSome h3) (orElse_isSome h4)

/-- C9 counterexample: in the initial state of the singleton
`StateManager`, the `ingest_docx` key of `config` is absent
(undefined) — the constructor's config literal does not set it — so the
claim that every listed config field, including the ingest-docx flag,
is always defined fails at the initial state. -/
theorem claim_C9_cex : smInit.state.config.ingest_docx = none := rfl

/-- Through any sequence of `updateConfig` merges, a config key that is
absent from every update stays absent. -/
theorem applyConfigUpdates_docx_none :
    ∀ (us : List Config) (c : Config), c.ingest_docx = none →
      (∀ v ∈ us, v.ingest_docx = none) →
      (applyConfigUpdates c us).ingest_docx = none := by
  intro us
  induction us with
  | nil => exact fun c hc _ => hc
  | cons u us ih =>
    intro c hc hall
    have hu : u.ingest_docx = none := hall u (by simp)
    refine ih (mergeConfig c u) ?_ (fun v hv => hall v (by simp [hv]))
    simp [mergeConfig, hu, hc]

/-- C9 amended: the four fields `kb_folder`, `chunk_size`, `overlap`,
`batch_size` carry the documented defaults `"kb"`, `100000`, `200`,
`64` in the initial state and remain defined through any sequence of
`updateConfig` merges (fields missing from a loaded config fall back to
the previously held value); each field that a given update does not
mention is preserved by the merge, independently of what the other
fields of that update do; and the `ingest_docx` flag, which has no
default, stays absent through any sequence of updates none of which
supplies it. -/
theorem claim_C9_amended (us : List Config) (c u : Config) :
    initialConfig.kb_folder = some ('k' :: 'b' :: []) ∧
    initialConfig.chunk_size = some 100000 ∧
    initialConfig.overlap = some 200 ∧
    initialConfig.batch_size = some 64 ∧
    (applyConfigUpdates initialConfig us).kb_folder.isSome = true ∧
    (applyConfigUpdates initialConfig us).chunk_size.isSome = true ∧
    (applyConfigUpdates initialConfig us).overlap.isSome = true ∧
    (applyConfigUpdates initialConfig us).batch_size.isSome = true ∧
    (u.kb_folder = none → (mergeConfig c u).kb_folder = c.kb_folder) ∧
    (u.chunk_size = none → (mergeConfig c u).chunk_size = c.chunk_size) ∧
    (u.overlap = none → (mergeConfig c u).overlap = c.overlap) ∧
    (u.batch_size = none → (mergeConfig c u).batch_size = c.batch_size) ∧
    (u.ingest_docx = none → (mergeConfig c u).ingest_docx = c.ingest_docx) ∧
    ((∀ v ∈ us, v.ingest_docx = none) →
      (applyConfigUpdates initialConfig us).ingest_docx = none) := by
  obtain ⟨h1, h2, h3, h4⟩ := applyConfigUpdates_isSome us initialConfig rfl rfl rfl rfl
  refine ⟨rfl, rfl, rfl, rfl, h1, h2, h3, h4, ?_, ?_, ?_, ?_, ?_, ?_⟩
  · intro h
    simp [mergeConfig, h]
  · intro h
    simp [mergeConfig, h]
  · intro h
    simp [mergeConfig, h]
  · intro h
    simp [mergeConfig, h]
  · intro h
    simp [mergeConfig, h]
  · intro h
    exact applyConfigUpdates_docx_none us initialConfig rfl h

/-- C9 witness: genuinely partial updates — one update setting only
the kb folder and the docx flag preserves `overlap` and `chunk_size`;
one setting the kb folder and chunk size preserves `ingest_docx`; and
after a loaded config that mentions other fields but not `ingest_docx`,
that flag is still absent while `kb_folder` is still defined. -/
theorem claim_C9_amended_w :
    (applyConfigUpdates initialConfig
      [⟨some ('x' :: []), some 5, none, none, none⟩]).kb_folder.isSome = true ∧
    (mergeConfig initialConfig
      ⟨some ('x' :: []), none, none, none, some true⟩).overlap
        = initialConfig.overlap ∧
    (mergeConfig initialConfig
      ⟨some ('x' :: []), none, none, none, some true⟩).chunk_size
        = initialConfig.chunk_size ∧
    (mergeConfig initialConfig
      ⟨some ('x' :: []), some 5, none, none, none⟩).ingest_docx
        = initialConfig.ingest_docx ∧
    (applyConfigUpdates initialConfig
      [⟨some ('x' :: []), some 5, none, none, none⟩]).ingest_docx = none := by
  have hA := claim_C9_amended [⟨some ('x' :: []), some 5, none, none, none⟩]
    initialConfig ⟨some ('x' :: []), none, none, none, some true⟩
  have hB := claim_C9_amended [⟨some ('x' :: []), some 5, none, none, none⟩]
    initialConfig ⟨some ('x' :: []), some 5, none, none, none⟩
  exact ⟨hA.2.2.2.2.1,
    hA.2.2.2.2.2.2.2.2.2.2.1 rfl,
    hA.2.2.2.2.2.2.2.2.2.1 rfl,
    hB.2.2.2.2.2.2.2.2.2.2.2.2.1 rfl,
    hB.2.2.2.2.2.2.2.2.2.2.2.2.2 (by decide)⟩

/-- C10: subscribing the same listener function twice makes each
`setState` invoke it twice (first conjunct); but a single call to
either returned unsubscriber filters by function identity and removes
both occurrences at once — here leaving exactly the other listeners
(second conjunct) — so the listener receives no notification from any
later `setState` (third conjunct). -/
theorem claim_C10 (m : SM) (L : Nat) (u : StateUpdate) (h : L ∉ m.listeners) :
    ((setState (subscribe (subscribe m L) L) u).2.countP (fun p => p.1 = L)) = 2 ∧
    (unsubscribe (subscribe (subscribe m L) L) L).listeners = m.listeners ∧
    ∀ us, ((runUpdates (unsubscribe (subscribe (subscribe m L) L) L) us).2.filter
        (fun p => p.1 = L)) = [] := by
  refine ⟨?_, ?_, ?_⟩
  · have e : (setState (subscribe (subscribe m L) L) u).2 =
        ((m.listeners ++ [L]) ++ [L]).map
          (fun i => (i, applyUpdate m.state u)) := rfl
    rw [e, List.countP_map, List.countP_append, List.countP_append]
    have h0 : m.listeners.countP
        ((fun p => decide (p.1 = L)) ∘ (fun i => (i, applyUpdate m.state u))) = 0 := by
      rw [List.countP_eq_zero]
      intro i hi
      simp only [Function.comp, decide_eq_true_eq]
      intro he
      exact h (he ▸ hi)
    rw [h0]
    simp [List.countP_cons, Function.comp]
  · show ((m.listeners ++ [L]) ++ [L]).filter (fun j => j ≠ L) = m.listeners
    rw [List.filter_append, List.filter_append]
    have hself : m.listeners.filter (fun j => j ≠ L) = m.listeners := by
      rw [List.filter_eq_self]
      intro a ha
      have hne : a ≠ L := fun he => h (he ▸ ha)
      simp [hne]
    have hL : ([L] : List Nat).filter (fun j => j ≠ L) = [] := by simp
    rw [hself, hL]
    simp
  · intro us
    exact runUpdates_filter_not_mem us _ L (not_mem_filter_ne _ L)

/-- C10 witness: duplicate subscription of listener `5` to the
singleton store, one `setState`, one unsubscribe, one more update. -/
theorem claim_C10_w :
    ((setState (subscribe (subscribe smInit 5) 5)
        ⟨none, none, some true, none, none⟩).2.countP (fun p => p.1 = 5)) = 2 ∧
    (unsubscribe (subscribe (subscribe smInit 5) 5) 5).listeners = smInit.listeners ∧
    ((runUpdates (unsubscribe (subscribe (subscribe smInit 5) 5) 5)
        [⟨none, none, some false, none, none⟩]).2.filter (fun p => p.1 = 5)) = [] :=
  ⟨(claim_C10 smInit 5 ⟨none, none, some true, none, none⟩ (by decide)).1,
   (claim_C10 smInit 5 ⟨none, none, some true, none, none⟩ (by decide)).2.1,
   (claim_C10 smInit 5 ⟨none, none, some true, none, none⟩ (by decide)).2.2
     [⟨none, none, some false, none, none⟩]⟩
